import Mathlib

/-
Verification of the transaction-relay and memory-pool-synchronization layer
(snarkOS, src/network/src/transactions/transactions.rs).

The Rust handlers are shallowly embedded as pure Lean functions.  Network
addresses are wrapped naturals, raw transaction bytes are lists of naturals,
and the external collaborators (decoder, encoder, consensus verifier, memory
pool primitives) appear as function fields of an `Env` record, matching how
the code only ever calls them through the `Environment` accessor interface.
Outbound sends are collected into a list of messages; logging at error/info
level in `received_transaction` is recorded as a list of events where a claim
refers to it.  A Rust panic (the `.unwrap()` on the local address) is modelled
by an `Option` result: `none` is the panic.
-/

namespace MysnarkOS

instance {ε α : Type} [DecidableEq ε] [DecidableEq α] : DecidableEq (Except ε α)
  | .error a, .error b =>
    if h : a = b then isTrue (by rw [h]) else isFalse (by intro hc; cases hc; exact h rfl)
  | .error _, .ok _ => isFalse (by intro hc; cases hc)
  | .ok _, .error _ => isFalse (by intro hc; cases hc)
  | .ok a, .ok b =>
    if h : a = b then isTrue (by rw [h]) else isFalse (by intro hc; cases hc; exact h rfl)

/-- A network socket address (std::net::SocketAddr), abstracted to a tag. -/
structure SocketAddr where
  addr : Nat
deriving DecidableEq, Repr

/-- The message payload variants used by this file (external::message::Payload). -/
inductive Payload where
  | GetMemoryPool : Payload
  | Transaction : List Nat → Payload
  | MemoryPool : List (List Nat) → Payload
deriving DecidableEq, Repr

/-- A directed outbound message: `Message::new(Direction::Outbound(dest), payload)`. -/
structure Message where
  dest : SocketAddr
  payload : Payload
deriving DecidableEq, Repr

/-- A decoded transaction (snarkvm Tx), abstracted to the two fields this layer
inspects: its identity (the transaction id that pool insertion is keyed by and
returns) and its value balance. -/
structure Tx where
  id : Nat
  value_balance : Int
deriving DecidableEq, Repr

/-- A memory pool entry (snarkos_consensus::memory_pool::Entry). -/
structure Entry where
  size_in_bytes : Nat
  transaction : Tx
deriving DecidableEq, Repr

/-- The memory pool: a keyed collection of entries, txid to entry. -/
structure MemoryPool where
  transactions : List (Nat × Entry)
deriving DecidableEq, Repr

/-- Errors escalated by the relay handlers (NetworkError). -/
inductive NetworkError where
  | txReadError : NetworkError
  | verifyError : NetworkError
deriving DecidableEq, Repr

/-- Errors returned by the memory pool collaborator. -/
inductive PoolError where
  | storageError : PoolError
deriving DecidableEq, Repr

/-- Log events emitted by `received_transaction` at error/info level. -/
inductive LogEvent where
  | invalidTx : LogEvent
  | coinbaseTx : LogEvent
  | addedToPool : LogEvent
deriving DecidableEq, Repr

/-- The node environment and external collaborators, at their call interface:
`is_bootnode`, `local_address`, `Tx::read` (decode), `to_bytes!` (encode),
`verify_transaction` (with its parameters and storage arguments fixed), and
the memory pool primitives `insert`, `cleanse`, `store`. -/
structure Env where
  isBootnode : Bool
  localAddress : Option SocketAddr
  decode : List Nat → Option Tx
  encode : Tx → Option (List Nat)
  verify : Tx → Except NetworkError Bool
  insert : MemoryPool → Entry → Except PoolError (MemoryPool × Option Nat)
  cleanse : MemoryPool → Except PoolError MemoryPool
  store : MemoryPool → Except PoolError Unit

/-- Modelled from the spec: the memory pool's `insert` is not part of this
repository (it lives in snarkos_consensus).  Per the spec it is keyed by
transaction identity, inserting an already-present identity is a no-op that
returns no identity (a duplicate, never an error), and a fresh identity is
appended and returned as newly inserted. -/
def MemoryPool.specInsert (pool : MemoryPool) (entry : Entry) :
    MemoryPool × Option Nat :=
  if pool.transactions.any (fun p => p.1 == entry.transaction.id) then
    (pool, none)
  else
    (⟨pool.transactions ++ [(entry.transaction.id, entry)]⟩,
      some entry.transaction.id)

/-- The spec-modelled insert wrapped in the fallible interface the code sees. -/
def specInsertOracle : MemoryPool → Entry → Except PoolError (MemoryPool × Option Nat) :=
  fun pool entry => .ok (pool.specInsert entry)

/-- The loop body of `propagate_transaction`: for each connected peer other
than the transaction sender and the local address, enqueue one outbound
`Transaction` message carrying the raw bytes. -/
def propagateLoop (transaction_bytes : List Nat) (transaction_sender : SocketAddr)
    (local_address : SocketAddr) : List SocketAddr → List Message
  | [] => []
  | remote :: rest =>
    if remote ≠ transaction_sender ∧ remote ≠ local_address then
      ⟨remote, .Transaction transaction_bytes⟩ ::
        propagateLoop transaction_bytes transaction_sender local_address rest
    else
      propagateLoop transaction_bytes transaction_sender local_address rest

/-- `propagate_transaction`: broadcast raw bytes to all connected peers except
the sender and the local node.  The source unwraps
`environment.local_address()`; `none` models the panic when it is unset. -/
def propagate_transaction (env : Env) (transaction_bytes : List Nat)
    (transaction_sender : SocketAddr) (connected_peers : List SocketAddr) :
    Option (List Message) :=
  match env.localAddress with
  | none => none
  | some local_address =>
    some (propagateLoop transaction_bytes transaction_sender local_address connected_peers)

/-- `update`: trigger the transaction sync with a selected peer.  The source
never touches the memory pool; it is threaded through unchanged so that the
absence of mutation is visible in the result. -/
def update (env : Env) (pool : MemoryPool) (sync_node : Option SocketAddr) :
    MemoryPool × List Message × Except NetworkError Unit :=
  let sent :=
    if !env.isBootnode then
      match sync_node with
      | some s => [⟨s, .GetMemoryPool⟩]
      | none => []
    else []
  (pool, sent, .ok ())

/-- The observable outcome of `received_transaction`: the pool afterwards, the
outbound messages, the error/info log events, and the returned result. -/
structure RxOutcome where
  pool : MemoryPool
  sent : List Message
  log : List LogEvent
  result : Except NetworkError Unit
deriving DecidableEq, Repr

/-- `received_transaction`: decode, verify, reject negative value balance,
insert into the pool, and propagate when the insertion reports a new entry.
`none` models the panic inherited from `propagate_transaction`. -/
def received_transaction (env : Env) (pool : MemoryPool) (source : SocketAddr)
    (transaction : List Nat) (connected_peers : List SocketAddr) :
    Option RxOutcome :=
  match env.decode transaction with
  | none => some ⟨pool, [], [], .ok ()⟩
  | some tx =>
    match env.verify tx with
    | .error e => some ⟨pool, [], [], .error e⟩
    | .ok valid =>
      if !valid then
        some ⟨pool, [], [.invalidTx], .ok ()⟩
      else if tx.value_balance < 0 then
        some ⟨pool, [], [.coinbaseTx], .ok ()⟩
      else
        match env.insert pool ⟨transaction.length, tx⟩ with
        | .error _ => some ⟨pool, [], [], .ok ()⟩
        | .ok (pool2, none) => some ⟨pool2, [], [], .ok ()⟩
        | .ok (pool2, some _) =>
          match propagate_transaction env transaction source connected_peers with
          | none => none
          | some msgs => some ⟨pool2, msgs, [.addedToPool], .ok ()⟩

/-- The snapshot loop of `received_get_memory_pool`: re-encode each pool entry,
pushing the bytes when encoding succeeds and skipping the entry otherwise. -/
def snapshotTxs (env : Env) : List (Nat × Entry) → List (List Nat)
  | [] => []
  | p :: rest =>
    match env.encode p.2.transaction with
    | some transaction_bytes => transaction_bytes :: snapshotTxs env rest
    | none => snapshotTxs env rest

/-- `received_get_memory_pool`: answer a pool request with one batch message
holding the re-encoded entries, unless that batch is empty. -/
def received_get_memory_pool (env : Env) (pool : MemoryPool)
    (remote_address : SocketAddr) :
    MemoryPool × List Message × Except NetworkError Unit :=
  if !(snapshotTxs env pool.transactions).isEmpty then
    (pool, [⟨remote_address, .MemoryPool (snapshotTxs env pool.transactions)⟩], .ok ())
  else
    (pool, [], .ok ())

/-- The loop of `received_memory_pool`: decode each byte-block (a decode
failure aborts the whole call with an error, via the `?` operator) and insert
it; insert errors and duplicates are silently ignored. -/
def insertLoop (env : Env) : MemoryPool → List (List Nat) → MemoryPool × Option NetworkError
  | pool, [] => (pool, none)
  | pool, transaction_bytes :: rest =>
    match env.decode transaction_bytes with
    | none => (pool, some .txReadError)
    | some tx =>
      match env.insert pool ⟨transaction_bytes.length, tx⟩ with
      | .ok (pool2, _) => insertLoop env pool2 rest
      | .error _ => insertLoop env pool rest

/-- The observable outcome of `received_memory_pool`: the pool afterwards, how
many times `cleanse` and `store` were invoked, and the returned result. -/
structure BatchOutcome where
  pool : MemoryPool
  cleanseCalls : Nat
  storeCalls : Nat
  result : Except NetworkError Unit
deriving DecidableEq, Repr

/-- `received_memory_pool`: merge a peer-supplied batch into the pool, then
cleanse and store it once for the whole batch.  A decode failure inside the
loop returns the error before cleanse/store run.  Cleanse and store failures
are swallowed (logged in the source); the invocation counters record that each
was called exactly once on the path that reaches them. -/
def received_memory_pool (env : Env) (pool : MemoryPool)
    (transactions : List (List Nat)) : BatchOutcome :=
  match insertLoop env pool transactions with
  | (pool2, some e) => ⟨pool2, 0, 0, .error e⟩
  | (pool2, none) =>
    let pool3 :=
      match env.cleanse pool2 with
      | .ok p => p
      | .error _ => pool2
    match env.store pool3 with
    | _ => ⟨pool3, 1, 1, .ok ()⟩

/-- Whether a relay result is a success. -/
def exOk : Except NetworkError Unit → Bool
  | .ok _ => true
  | .error _ => false

/-! Concrete material for witnesses and counterexamples. -/

/-- A sample transaction with a positive value balance. -/
def txPos : Tx := ⟨7, 5⟩

/-- A sample transaction with a negative (coinbase-shaped) value balance. -/
def txNeg : Tx := ⟨1, -1⟩

/-- The empty memory pool. -/
def mpEmpty : MemoryPool := ⟨[]⟩

/-- A memory pool holding one positive-balance entry. -/
def mpOne : MemoryPool := ⟨[(7, ⟨1, txPos⟩)]⟩

/-- A baseline concrete environment: non-bootnode with local address set, a
decoder always yielding the positive-balance transaction, an encoder yielding
the singleton id bytes, a verifier accepting everything, and the spec-modelled
pool insert. -/
def envBase : Env where
  isBootnode := false
  localAddress := some ⟨0⟩
  decode := fun _ => some txPos
  encode := fun tx => some [tx.id]
  verify := fun _ => .ok true
  insert := specInsertOracle
  cleanse := fun p => .ok p
  store := fun _ => .ok ()

/-- An environment whose decoder always fails. -/
def envNoDecode : Env := { envBase with decode := fun _ => none }

/-- An environment whose decoder yields the negative-balance transaction. -/
def envNegTx : Env := { envBase with decode := fun _ => some txNeg }

/-- An environment whose verifier rejects everything. -/
def envRejects : Env := { envBase with verify := fun _ => .ok false }

/-- An environment whose encoder always fails. -/
def envNoEncode : Env := { envBase with encode := fun _ => none }

/-- An environment whose pool insert always fails. -/
def envInsErr : Env := { envBase with insert := fun _ _ => .error .storageError }

/-- A bootnode environment. -/
def envBoot : Env := { envBase with isBootnode := true }

/-! Claim theorems. -/

/-- C6: a raw byte sequence that fails to decode in `received_transaction`
causes zero pool mutation, zero outbound sends, zero log events, and the
handler returns success. -/
theorem c6_decode_failure_silent (env : Env) (pool : MemoryPool)
    (source : SocketAddr) (bytes : List Nat) (peers : List SocketAddr)
    (hdec : env.decode bytes = none) :
    received_transaction env pool source bytes peers = some ⟨pool, [], [], .ok ()⟩ := by
  simp [received_transaction, hdec]

/-- Witness for C6 at a concrete environment whose decoder fails. -/
theorem c6_witness :
    received_transaction envNoDecode mpEmpty ⟨3⟩ [0] [⟨1⟩]
      = some ⟨mpEmpty, [], [], .ok ()⟩ :=
  c6_decode_failure_silent envNoDecode mpEmpty ⟨3⟩ [0] [⟨1⟩] rfl

/-- C5: a transaction the consensus verifier rejects (returns false) is not
inserted, triggers no propagation, is logged as invalid, and the handler
returns success. -/
theorem c5_verify_false_dropped (env : Env) (pool : MemoryPool)
    (source : SocketAddr) (bytes : List Nat) (peers : List SocketAddr) (tx : Tx)
    (hdec : env.decode bytes = some tx)
    (hver : env.verify tx = .ok false) :
    received_transaction env pool source bytes peers
      = some ⟨pool, [], [.invalidTx], .ok ()⟩ := by
  simp [received_transaction, hdec, hver]

/-- Witness for C5 at a concrete rejecting verifier. -/
theorem c5_witness :
    received_transaction envRejects mpEmpty ⟨3⟩ [0] [⟨1⟩]
      = some ⟨mpEmpty, [], [.invalidTx], .ok ()⟩ :=
  c5_verify_false_dropped envRejects mpEmpty ⟨3⟩ [0] [⟨1⟩] txPos rfl rfl

/-- C10: when pool insertion itself errors in `received_transaction`, the
error is discarded: no propagation, no log event, and the handler returns
success. -/
theorem c10_insert_error_swallowed (env : Env) (pool : MemoryPool)
    (source : SocketAddr) (bytes : List Nat) (peers : List SocketAddr)
    (tx : Tx) (err : PoolError)
    (hdec : env.decode bytes = some tx)
    (hver : env.verify tx = .ok true)
    (hvb : ¬ tx.value_balance < 0)
    (hins : env.insert pool ⟨bytes.length, tx⟩ = .error err) :
    received_transaction env pool source bytes peers
      = some ⟨pool, [], [], .ok ()⟩ := by
  simp [received_transaction, hdec, hver, hvb, hins]

/-- Witness for C10 at a concrete always-failing insert. -/
theorem c10_witness :
    received_transaction envInsErr mpEmpty ⟨3⟩ [0] [⟨1⟩]
      = some ⟨mpEmpty, [], [], .ok ()⟩ :=
  c10_insert_error_swallowed envInsErr mpEmpty ⟨3⟩ [0] [⟨1⟩] txPos
    .storageError rfl rfl (by decide) rfl

/-- C8: `update` never mutates the pool and always returns success; a bootnode
sends nothing, a missing sync node sends nothing, and a non-bootnode with a
sync node sends exactly one GetMemoryPool message to it. -/
theorem c8_update_behavior (env : Env) (pool : MemoryPool)
    (sync_node : Option SocketAddr) :
    (update env pool sync_node).1 = pool ∧
    (update env pool sync_node).2.2 = .ok () ∧
    (env.isBootnode = true → (update env pool sync_node).2.1 = []) ∧
    (sync_node = none → (update env pool sync_node).2.1 = []) ∧
    (∀ a, env.isBootnode = false → sync_node = some a →
      (update env pool sync_node).2.1 = [⟨a, .GetMemoryPool⟩]) := by
  cases hb : env.isBootnode <;> cases sync_node <;> simp [update, hb]

/-- Witness for C8 at a concrete non-bootnode with a sync node supplied. -/
theorem c8_witness :
    (update envBase mpEmpty (some ⟨2⟩)).1 = mpEmpty ∧
    (update envBase mpEmpty (some ⟨2⟩)).2.2 = .ok () ∧
    (envBase.isBootnode = true → (update envBase mpEmpty (some ⟨2⟩)).2.1 = []) ∧
    ((some ⟨2⟩ : Option SocketAddr) = none →
      (update envBase mpEmpty (some ⟨2⟩)).2.1 = []) ∧
    (∀ a, envBase.isBootnode = false → (some ⟨2⟩ : Option SocketAddr) = some a →
      (update envBase mpEmpty (some ⟨2⟩)).2.1 = [⟨a, .GetMemoryPool⟩]) :=
  c8_update_behavior envBase mpEmpty (some ⟨2⟩)

/-- C2 as amended: `received_memory_pool` invokes cleanse and store exactly
once when it returns success, and zero times when it returns an error (a
decode failure aborts the call before the cleanse/store epilogue). -/
theorem c2_cleanse_store_iff_success (env : Env) (pool : MemoryPool)
    (txs : List (List Nat)) :
    (received_memory_pool env pool txs).cleanseCalls
        = (if exOk (received_memory_pool env pool txs).result then 1 else 0) ∧
    (received_memory_pool env pool txs).storeCalls
        = (if exOk (received_memory_pool env pool txs).result then 1 else 0) := by
  unfold received_memory_pool
  rcases h : insertLoop env pool txs with ⟨pool2, e⟩
  cases e with
  | none =>
    cases hc : env.cleanse pool2 <;> simp [exOk]
  | some err => simp [exOk]

/-- Counterexample for C2: with a failing decoder, the batch call returns an
error and neither cleanse nor store has been invoked. -/
theorem c2_counterexample :
    (received_memory_pool envNoDecode mpEmpty [[0]]).result
        = .error .txReadError ∧
    (received_memory_pool envNoDecode mpEmpty [[0]]).cleanseCalls = 0 ∧
    (received_memory_pool envNoDecode mpEmpty [[0]]).storeCalls = 0 :=
  ⟨rfl, rfl, rfl⟩

/-- Counterexample for C1: batch ingestion via `received_memory_pool` performs
no value-balance check, so a decoded transaction with a negative value balance
is inserted into the pool. -/
theorem c1_counterexample :
    mpEmpty.transactions = [] ∧
    (received_memory_pool envNegTx mpEmpty [[0]]).pool.transactions
        = [(txNeg.id, ⟨1, txNeg⟩)] ∧
    txNeg.value_balance < 0 :=
  ⟨rfl, rfl, by decide⟩

/-- The pool produced by the spec-modelled insert is either the old pool (a
duplicate) or the old pool with the new entry appended. -/
theorem specInsert_pool_cases (pool : MemoryPool) (entry : Entry)
    (pool2 : MemoryPool) (r : Option Nat)
    (h : pool.specInsert entry = (pool2, r)) :
    pool2 = pool ∨
      pool2.transactions = pool.transactions ++ [(entry.transaction.id, entry)] := by
  unfold MemoryPool.specInsert at h
  by_cases hany : pool.transactions.any (fun p => p.1 == entry.transaction.id)
  · rw [if_pos hany] at h
    injection h with h1 h2
    exact Or.inl h1.symm
  · rw [if_neg hany] at h
    injection h with h1 h2
    exact Or.inr (by rw [← h1])

/-- C1 as amended: the single-transaction path `received_transaction` (with the
spec-modelled pool insert) never adds a negative-value-balance transaction: it
preserves non-negativity of every pool entry. -/
theorem c1_no_negative_balance_single_path (env : Env) (pool : MemoryPool)
    (source : SocketAddr) (bytes : List Nat) (peers : List SocketAddr)
    (o : RxOutcome)
    (hins : env.insert = specInsertOracle)
    (hpool : ∀ p ∈ pool.transactions, 0 ≤ p.2.transaction.value_balance)
    (hrun : received_transaction env pool source bytes peers = some o) :
    ∀ p ∈ o.pool.transactions, 0 ≤ p.2.transaction.value_balance := by
  unfold received_transaction at hrun
  split at hrun
  · simp only [Option.some.injEq] at hrun; subst hrun; exact hpool
  · rename_i tx hdec
    split at hrun
    · simp only [Option.some.injEq] at hrun; subst hrun; exact hpool
    · rename_i valid hver
      split at hrun
      · simp only [Option.some.injEq] at hrun; subst hrun; exact hpool
      · split at hrun
        · simp only [Option.some.injEq] at hrun; subst hrun; exact hpool
        · rename_i hvalid hvb
          split at hrun
          · simp only [Option.some.injEq] at hrun; subst hrun; exact hpool
          · rename_i pool2 hinseq
            simp only [Option.some.injEq] at hrun; subst hrun
            rw [hins] at hinseq
            unfold specInsertOracle at hinseq
            simp only [Except.ok.injEq] at hinseq
            rcases specInsert_pool_cases _ _ _ _ hinseq with h | h
            · subst h; exact hpool
            · intro p hp
              rw [h] at hp
              rcases List.mem_append.mp hp with h1 | h2
              · exact hpool p h1
              · rcases List.mem_singleton.mp h2 with rfl
                simpa using Int.not_lt.mp hvb
          · rename_i pool2 txid hinseq
            split at hrun
            · exact Option.noConfusion hrun
            · simp only [Option.some.injEq] at hrun; subst hrun
              rw [hins] at hinseq
              unfold specInsertOracle at hinseq
              simp only [Except.ok.injEq] at hinseq
              rcases specInsert_pool_cases _ _ _ _ hinseq with h | h
              · subst h; exact hpool
              · intro p hp
                rw [h] at hp
                rcases List.mem_append.mp hp with h1 | h2
                · exact hpool p h1
                · rcases List.mem_singleton.mp h2 with rfl
                  simpa using Int.not_lt.mp hvb

/-- Witness for the amended C1 at a concrete admission that succeeds: the one
entry admitted into the pool has a non-negative value balance. -/
theorem c1_witness :
    0 ≤ ((7, (⟨1, txPos⟩ : Entry)) : Nat × Entry).2.transaction.value_balance :=
  c1_no_negative_balance_single_path envBase mpEmpty ⟨3⟩ [0] []
    ⟨⟨[(7, ⟨1, txPos⟩)]⟩, [], [.addedToPool], .ok ()⟩ rfl (by decide) rfl
    (7, ⟨1, txPos⟩) (by decide)

/-- Relates the snapshot loop of `received_get_memory_pool` to the list of
successful re-encodings of the pool entries. -/
theorem snapshotTxs_eq_filterMap (env : Env) (l : List (Nat × Entry)) :
    snapshotTxs env l = l.filterMap (fun p => env.encode p.2.transaction) := by
  induction l with
  | nil => rfl
  | cons p rest ih =>
    cases h : env.encode p.2.transaction <;>
      simp [snapshotTxs, List.filterMap_cons, h, ih]

/-- C7 as amended: `received_get_memory_pool` never mutates the pool and
returns success; it sends nothing when the list of successful re-encodings is
empty (in particular when the pool is empty), and otherwise sends exactly one
MemoryPool batch message to the requester carrying the re-encoding of every
entry whose encoding succeeds. -/
theorem c7_pool_request_response (env : Env) (pool : MemoryPool)
    (remote : SocketAddr) :
    (received_get_memory_pool env pool remote).1 = pool ∧
    (received_get_memory_pool env pool remote).2.2 = .ok () ∧
    (pool.transactions = [] → (received_get_memory_pool env pool remote).2.1 = []) ∧
    (pool.transactions.filterMap (fun p => env.encode p.2.transaction) = [] →
      (received_get_memory_pool env pool remote).2.1 = []) ∧
    (pool.transactions.filterMap (fun p => env.encode p.2.transaction) ≠ [] →
      (received_get_memory_pool env pool remote).2.1 =
        [⟨remote, .MemoryPool
          (pool.transactions.filterMap (fun p => env.encode p.2.transaction))⟩]) := by
  unfold received_get_memory_pool
  rw [snapshotTxs_eq_filterMap]
  by_cases h : List.filterMap (fun p => env.encode p.2.transaction) pool.transactions = []
  · rw [h]
    exact ⟨rfl, rfl, fun _ => rfl, fun _ => rfl, fun hne => absurd rfl hne⟩
  · have hne : (List.filterMap (fun p => env.encode p.2.transaction)
        pool.transactions).isEmpty = false := by
      cases hl : List.filterMap (fun p => env.encode p.2.transaction) pool.transactions with
      | nil => exact absurd hl h
      | cons a l => rfl
    rw [hne]
    exact ⟨rfl, rfl, fun hp => absurd (by rw [hp]; rfl) h,
      fun hh => absurd hh h, fun _ => rfl⟩

/-- Witness for the amended C7 at a concrete one-entry pool. -/
theorem c7_witness :
    (received_get_memory_pool envBase mpOne ⟨5⟩).2.1
      = [⟨⟨5⟩, .MemoryPool [[7]]⟩] :=
  (c7_pool_request_response envBase mpOne ⟨5⟩).2.2.2.2 (by decide)

/-- Counterexample for C7: a non-empty pool all of whose entries fail to
re-encode produces zero outbound sends, though the claim requires exactly one
message whenever the pool is non-empty. -/
theorem c7_counterexample :
    mpOne.transactions ≠ [] ∧
    (received_get_memory_pool envNoEncode mpOne ⟨5⟩).2.1 = [] :=
  ⟨by decide, rfl⟩

/-- Every message the propagation loop emits is addressed to a connected peer
other than the sender and the local address, and carries the raw bytes. -/
theorem propagateLoop_mem (bytes : List Nat) (s l : SocketAddr)
    (peers : List SocketAddr) (m : Message)
    (hm : m ∈ propagateLoop bytes s l peers) :
    m.dest ∈ peers ∧ m.dest ≠ s ∧ m.dest ≠ l ∧ m.payload = .Transaction bytes := by
  induction peers with
  | nil => cases hm
  | cons r rest ih =>
    simp only [propagateLoop] at hm
    by_cases h : r ≠ s ∧ r ≠ l
    · rw [if_pos h] at hm
      rcases List.mem_cons.mp hm with h1 | h2
      · subst h1
        exact ⟨List.mem_cons_self r rest, h.1, h.2, rfl⟩
      · obtain ⟨a, b, c, d⟩ := ih h2
        exact ⟨List.mem_cons_of_mem r a, b, c, d⟩
    · rw [if_neg h] at hm
      obtain ⟨a, b, c, d⟩ := ih hm
      exact ⟨List.mem_cons_of_mem r a, b, c, d⟩

/-- The propagation loop emits, to an address that is neither the sender nor
the local address, as many messages as that address occurs among the peers. -/
theorem propagateLoop_countP (bytes : List Nat) (s l a : SocketAddr)
    (has : a ≠ s) (hal : a ≠ l) (peers : List SocketAddr) :
    (propagateLoop bytes s l peers).countP (fun m => m.dest == a)
      = peers.count a := by
  induction peers with
  | nil => rfl
  | cons r rest ih =>
    simp only [propagateLoop]
    by_cases h : r ≠ s ∧ r ≠ l
    · rw [if_pos h, List.countP_cons, List.count_cons, ih]
    · rw [if_neg h, ih, List.count_cons]
      have hra : ¬ (r = a) := by
        intro heq
        subst heq
        exact h ⟨has, hal⟩
      have hra2 : ¬ (a = r) := fun e => hra e.symm
      simp [hra, hra2]

/-- C3: with the local address set, `propagate_transaction` enqueues exactly
one Transaction message carrying the raw bytes to each connected peer other
than the sender and the local address, and every emitted message is addressed
to such a peer. -/
theorem c3_propagation_targets (env : Env) (bytes : List Nat)
    (sender loc : SocketAddr) (peers : List SocketAddr)
    (hl : env.localAddress = some loc) (hnd : peers.Nodup) :
    ∃ msgs, propagate_transaction env bytes sender peers = some msgs ∧
      (∀ a ∈ peers, a ≠ sender → a ≠ loc →
        msgs.countP (fun m => m.dest == a) = 1) ∧
      (∀ m ∈ msgs, m.dest ∈ peers ∧ m.dest ≠ sender ∧ m.dest ≠ loc ∧
        m.payload = .Transaction bytes) := by
  refine ⟨propagateLoop bytes sender loc peers, ?_, ?_, ?_⟩
  · unfold propagate_transaction
    rw [hl]
  · intro a ha has hal
    rw [propagateLoop_countP bytes sender loc a has hal peers]
    exact List.count_eq_one_of_mem hnd ha
  · intro m hm
    exact propagateLoop_mem bytes sender loc peers m hm

/-- Witness for C3 at a concrete peer set holding two ordinary peers, the
sender, and the local address. -/
theorem c3_witness :
    ∃ msgs, propagate_transaction envBase [9] ⟨3⟩ [⟨1⟩, ⟨2⟩, ⟨3⟩, ⟨0⟩] = some msgs ∧
      (∀ a ∈ [(⟨1⟩ : SocketAddr), ⟨2⟩, ⟨3⟩, ⟨0⟩], a ≠ ⟨3⟩ → a ≠ ⟨0⟩ →
        msgs.countP (fun m => m.dest == a) = 1) ∧
      (∀ m ∈ msgs, m.dest ∈ [(⟨1⟩ : SocketAddr), ⟨2⟩, ⟨3⟩, ⟨0⟩] ∧
        m.dest ≠ ⟨3⟩ ∧ m.dest ≠ ⟨0⟩ ∧ m.payload = .Transaction [9]) :=
  c3_propagation_targets envBase [9] ⟨3⟩ ⟨0⟩ [⟨1⟩, ⟨2⟩, ⟨3⟩, ⟨0⟩] rfl (by decide)

/-- C4: with the spec-modelled pool insert, admitting a fresh transaction
inserts exactly one entry for its identity, logs exactly one admission event,
and invokes propagation; admitting the same bytes a second time leaves the
pool unchanged, sends nothing, and logs nothing, so the identity ends with one
pool entry and one propagation event in total. -/
theorem c4_duplicate_admission_suppresses_broadcast (env : Env)
    (pool : MemoryPool) (source : SocketAddr) (bytes : List Nat)
    (peers : List SocketAddr) (tx : Tx) (loc : SocketAddr)
    (hins : env.insert = specInsertOracle)
    (hdec : env.decode bytes = some tx)
    (hver : env.verify tx = .ok true)
    (hvb : ¬ tx.value_balance < 0)
    (hloc : env.localAddress = some loc)
    (hfresh : ∀ p ∈ pool.transactions, p.1 ≠ tx.id) :
    ∃ o1 o2,
      received_transaction env pool source bytes peers = some o1 ∧
      received_transaction env o1.pool source bytes peers = some o2 ∧
      o1.pool.transactions
        = pool.transactions ++ [(tx.id, ⟨bytes.length, tx⟩)] ∧
      o1.pool.transactions.countP (fun p => p.1 == tx.id) = 1 ∧
      o1.log = [.addedToPool] ∧
      o1.sent = propagateLoop bytes source loc peers ∧
      o2.pool = o1.pool ∧
      o2.sent = [] ∧
      o2.log = [] := by
  have hany1 : pool.transactions.any (fun p => p.1 == tx.id) = false := by
    rw [List.any_eq_false]
    intro p hp
    simpa using hfresh p hp
  have hany2 : (pool.transactions ++ [(tx.id, (⟨bytes.length, tx⟩ : Entry))]).any
      (fun p => p.1 == tx.id) = true := by
    simp
  refine ⟨⟨⟨pool.transactions ++ [(tx.id, ⟨bytes.length, tx⟩)]⟩,
      propagateLoop bytes source loc peers, [.addedToPool], .ok ()⟩,
    ⟨⟨pool.transactions ++ [(tx.id, ⟨bytes.length, tx⟩)]⟩, [], [], .ok ()⟩,
    ?_, ?_, rfl, ?_, rfl, rfl, rfl, rfl, rfl⟩
  · simp [received_transaction, propagate_transaction, hdec, hver, hvb, hins,
      hloc, specInsertOracle, MemoryPool.specInsert, hany1]
  · simp [received_transaction, hdec, hver, hvb, hins,
      specInsertOracle, MemoryPool.specInsert, hany2]
  · rw [List.countP_append]
    have hz : pool.transactions.countP (fun p => p.1 == tx.id) = 0 := by
      rw [List.countP_eq_zero]
      intro p hp
      simpa using hfresh p hp
    simp [hz]

/-- Witness for C4 at a concrete fresh admission followed by its duplicate. -/
theorem c4_witness :
    ∃ o1 o2,
      received_transaction envBase mpEmpty ⟨3⟩ [0] [⟨1⟩] = some o1 ∧
      received_transaction envBase o1.pool ⟨3⟩ [0] [⟨1⟩] = some o2 ∧
      o1.pool.transactions
        = mpEmpty.transactions ++ [(txPos.id, ⟨1, txPos⟩)] ∧
      o1.pool.transactions.countP (fun p => p.1 == txPos.id) = 1 ∧
      o1.log = [.addedToPool] ∧
      o1.sent = propagateLoop [0] ⟨3⟩ ⟨0⟩ [⟨1⟩] ∧
      o2.pool = o1.pool ∧
      o2.sent = [] ∧
      o2.log = [] :=
  c4_duplicate_admission_suppresses_broadcast envBase mpEmpty ⟨3⟩ [0] [⟨1⟩]
    txPos ⟨0⟩ rfl rfl rfl (by decide) rfl (by decide)

/-- With the local address set, `received_transaction` cannot hit the panic of
the unconditional local-address unwrap. -/
theorem received_transaction_total (env : Env) (pool : MemoryPool)
    (source : SocketAddr) (bytes : List Nat) (peers : List SocketAddr)
    (loc : SocketAddr) (hl : env.localAddress = some loc) :
    received_transaction env pool source bytes peers ≠ none := by
  intro h
  unfold received_transaction at h
  rw [show propagate_transaction env bytes source peers
      = some (propagateLoop bytes source loc peers) from by
    unfold propagate_transaction; rw [hl]] at h
  repeat' split at h
  all_goals simp_all

/-- C9: `propagate_transaction` panics exactly when the local address is
unset, and `received_transaction` can only panic when the local address is
unset; with it set, both are total. -/
theorem c9_panic_iff_local_unset (env : Env) (bytes : List Nat)
    (sender : SocketAddr) (peers : List SocketAddr) (pool : MemoryPool)
    (source : SocketAddr) (cpeers : List SocketAddr) :
    (propagate_transaction env bytes sender peers = none ↔
      env.localAddress = none) ∧
    (received_transaction env pool source bytes cpeers = none →
      env.localAddress = none) := by
  constructor
  · unfold propagate_transaction
    cases h : env.localAddress <;> simp
  · intro h
    cases hl : env.localAddress with
    | none => rfl
    | some loc =>
      exact absurd h (received_transaction_total env pool source bytes cpeers loc hl)

/-- Witness for C9 at a concrete environment with the local address set. -/
theorem c9_witness :
    (propagate_transaction envBase [0] ⟨3⟩ [⟨1⟩] = none ↔
      envBase.localAddress = none) ∧
    (received_transaction envBase mpEmpty ⟨3⟩ [0] [⟨1⟩] = none →
      envBase.localAddress = none) :=
  c9_panic_iff_local_unset envBase [0] ⟨3⟩ [⟨1⟩] mpEmpty ⟨3⟩ [⟨1⟩]

end MysnarkOS
